import Mathlib

/-
Verification of the recipe-app backend specification against the code in
app/core/models.py, app/recipe/views.py and the behaviour pinned down by the
repository's own test-suite.  Strings are embedded as lists of characters.
-/

set_option maxRecDepth 8000

namespace RecipeApp

/-- Python str.split with a one-character separator, as invoked by
recipe_image_file_path in app/core/models.py.  It never returns the empty
list, and a string without the separator splits into the single piece that
is the whole string. -/
def pySplit (sep : Char) : List Char → List (List Char)
  | [] => [[]]
  | c :: cs =>
    match pySplit sep cs with
    | [] => [[]]
    | w :: ws => if c = sep then [] :: w :: ws else (c :: w) :: ws

/-- POSIX os.path.join restricted to two components: an absolute second
component replaces the first, otherwise a separator is inserted unless the
first component is empty or already ends in a slash. -/
def osPathJoin (a b : List Char) : List Char :=
  if b.head? = some '/' then b
  else if a = [] ∨ a.getLast? = some '/' then a ++ b
  else a ++ '/' :: b

/-- Embedding of recipe_image_file_path from app/core/models.py.  The fresh
uuid4 value is injected as the argument u, exactly as the repository test
patches uuid.uuid4 to a fixed value; the model-instance argument is unused
by the source and dropped here. -/
def recipe_image_file_path (u : List Char) (original_file_name : List Char) : List Char :=
  let ext := (pySplit '.' original_file_name).getLastD []
  let new_file_name := u ++ '.' :: ext
  osPathJoin "/uploads/recipe/".toList new_file_name

theorem pySplit_ne_nil (sep : Char) (s : List Char) : pySplit sep s ≠ [] := by
  cases s with
  | nil => simp [pySplit]
  | cons c cs =>
    simp only [pySplit]
    cases h : pySplit sep cs with
    | nil => simp
    | cons w ws => by_cases hc : c = sep <;> simp [hc]

theorem pySplit_of_not_mem (sep : Char) (s : List Char) (h : sep ∉ s) :
    pySplit sep s = [s] := by
  induction s with
  | nil => rfl
  | cons c cs ih =>
    have hc : c ≠ sep := by
      intro hh
      exact h (hh ▸ List.mem_cons_self c cs)
    have hcs : sep ∉ cs := fun hh => h (List.mem_cons_of_mem c hh)
    simp [pySplit, ih hcs, hc]

theorem two_le_length_pySplit (sep : Char) (a b : List Char) :
    2 ≤ (pySplit sep (a ++ sep :: b)).length := by
  induction a with
  | nil =>
    cases h : pySplit sep b with
    | nil => exact absurd h (pySplit_ne_nil sep b)
    | cons w ws =>
      simp [pySplit, h]
  | cons c cs ih =>
    cases h : pySplit sep (cs ++ sep :: b) with
    | nil => exact absurd h (pySplit_ne_nil _ _)
    | cons w ws =>
      rw [h] at ih
      by_cases hc : c = sep <;> simp [pySplit, h, hc] <;> simp at ih <;> omega

theorem getLastD_of_ne_nil {α : Type} (l : List α) (hl : l ≠ []) (d d' : α) :
    l.getLastD d = l.getLastD d' := by
  cases l with
  | nil => exact absurd rfl hl
  | cons x xs =>
    cases xs with
    | nil => simp
    | cons y ys => simp only [List.getLastD_cons]

theorem getLastD_pySplit (sep : Char) (rest ext : List Char) (hext : sep ∉ ext) :
    (pySplit sep (rest ++ sep :: ext)).getLastD [] = ext := by
  induction rest with
  | nil =>
    simp [pySplit, pySplit_of_not_mem sep ext hext, List.getLastD_cons]
  | cons c cs ih =>
    cases h : pySplit sep (cs ++ sep :: ext) with
    | nil => exact absurd h (pySplit_ne_nil _ _)
    | cons w ws =>
      rw [h] at ih
      have hws : ws ≠ [] := by
        have hlen := two_le_length_pySplit sep cs ext
        rw [h] at hlen
        intro hnil
        rw [hnil] at hlen
        simp at hlen
      have hunfold : pySplit sep ((c :: cs) ++ sep :: ext)
          = if c = sep then [] :: w :: ws else (c :: w) :: ws := by
        simp only [List.cons_append, pySplit, List.append_eq, h]
      by_cases hc : c = sep
      · rw [hunfold, if_pos hc, List.getLastD_cons]
        exact ih
      · rw [hunfold, if_neg hc, List.getLastD_cons]
        rw [getLastD_of_ne_nil ws hws (c :: w) w]
        rw [List.getLastD_cons] at ih
        exact ih

/-- C1: for every original filename that decomposes as rest ++ "." ++ ext with
ext free of dots (so ext is the substring after the last dot), and for every
injected uuid string whose first character is not a slash (uuid4 renders as
hex digits and dashes), the generated image path is exactly
"/uploads/recipe/" followed by the uuid, a dot and the extension. -/
theorem C1_recipe_image_path (u rest ext : List Char)
    (hu : u.head? ≠ some '/') (hext : '.' ∉ ext) :
    recipe_image_file_path u (rest ++ '.' :: ext)
      = "/uploads/recipe/".toList ++ (u ++ '.' :: ext) := by
  have hhead : (u ++ '.' :: ext).head? ≠ some '/' := by
    cases u with
    | nil => simp
    | cons a as => simpa using hu
  simp only [recipe_image_file_path, getLastD_pySplit '.' rest ext hext, osPathJoin]
  rw [if_neg hhead, if_pos]
  right
  decide

/-- C1 witness: with uuid "test-uuid" and original name "myimage.jpg" the
path is exactly "/uploads/recipe/test-uuid.jpg". -/
theorem C1_recipe_image_path_witness :
    recipe_image_file_path "test-uuid".toList "myimage.jpg".toList
      = "/uploads/recipe/test-uuid.jpg".toList := by
  have h := C1_recipe_image_path "test-uuid".toList "myimage".toList "jpg".toList
    (by decide) (by decide)
  exact h

/-- C10: an original filename without any dot still produces a path; the whole
filename plays the role of the extension, giving
"/uploads/recipe/" ++ uuid ++ "." ++ filename.  The generator is total on
every non-empty filename. -/
theorem C10_recipe_image_path_no_dot (u original : List Char)
    (hne : original ≠ []) (hdot : '.' ∉ original) (hu : u.head? ≠ some '/') :
    recipe_image_file_path u original
      = "/uploads/recipe/".toList ++ (u ++ '.' :: original) := by
  have hhead : (u ++ '.' :: original).head? ≠ some '/' := by
    cases u with
    | nil => simp
    | cons a as => simpa using hu
  simp only [recipe_image_file_path, pySplit_of_not_mem '.' original hdot,
    List.getLastD_cons, List.getLastD_nil, osPathJoin]
  rw [if_neg hhead, if_pos]
  right
  decide

/-- C10 witness: uuid "test-uuid" with the dot-free name "noextension" yields
"/uploads/recipe/test-uuid.noextension". -/
theorem C10_recipe_image_path_no_dot_witness :
    recipe_image_file_path "test-uuid".toList "noextension".toList
      = "/uploads/recipe/test-uuid.noextension".toList := by
  have h := C10_recipe_image_path_no_dot "test-uuid".toList "noextension".toList
    (by decide) (by decide) (by decide)
  exact h

/-- Tag row from app/core/models.py: a name and the owning user, the foreign
key held as the owner's id. -/
structure Tag where
  id : Nat
  name : List Char
  user : Nat
deriving DecidableEq

/-- Ingredient row from app/core/models.py, identical in shape to Tag. -/
structure Ingredient where
  id : Nat
  name : List Char
  user : Nat
deriving DecidableEq

/-- Recipe row from app/core/models.py.  The price column is a fixed-point
decimal with two fractional digits, held here in hundredths; tags and
ingredients are the many-to-many id sets; image is the optional stored
path. -/
structure Recipe where
  id : Nat
  user : Nat
  title : List Char
  time_minutes : Int
  price : Int
  link : List Char := []
  tags : List Nat := []
  ingredients : List Nat := []
  image : Option (List Char) := none
deriving DecidableEq

/-- Lexicographic strict order on character lists, used to embed the
order_by clauses of the viewsets. -/
def strLtB : List Char → List Char → Bool
  | [], [] => false
  | [], _ :: _ => true
  | _ :: _, [] => false
  | a :: as, b :: bs => if a = b then strLtB as bs else decide (a < b)

/-- Insertion step of insertion sort by a boolean relation. -/
def insertBy {α : Type} (le : α → α → Bool) (x : α) : List α → List α
  | [] => [x]
  | y :: ys => if le x y then x :: y :: ys else y :: insertBy le x ys

/-- Insertion sort by a boolean relation, embedding the order_by clause of a
queryset. -/
def sortBy {α : Type} (le : α → α → Bool) : List α → List α
  | [] => []
  | x :: xs => insertBy le x (sortBy le xs)

theorem mem_insertBy {α : Type} (le : α → α → Bool) (x y : α) (l : List α) :
    x ∈ insertBy le y l ↔ x = y ∨ x ∈ l := by
  induction l with
  | nil => simp [insertBy]
  | cons z zs ih =>
    by_cases h : le y z = true
    · simp [insertBy, h]
    · simp only [insertBy, if_neg h, List.mem_cons, ih]
      tauto

theorem mem_sortBy {α : Type} (le : α → α → Bool) (x : α) (l : List α) :
    x ∈ sortBy le l ↔ x ∈ l := by
  induction l with
  | nil => simp [sortBy]
  | cons z zs ih => simp [sortBy, mem_insertBy, ih]

/-- Authenticated request as seen by a viewset: the user resolved from the
bearer token, and the query parameters of the URL. -/
structure Request where
  user : Nat
  query_params : List (List Char × List Char)

/-- TagViewSet.get_queryset from app/recipe/views.py: filter the Tag table to
rows owned by the requesting user and order by name descending.  The source
reads nothing from the request besides the user, so the query parameters
(including any assigned_only entry) never influence the result. -/
def tag_get_queryset (db : List Tag) (request : Request) : List Tag :=
  sortBy (fun a b => !strLtB a.name b.name)
    (db.filter (fun t => t.user == request.user))

/-- IngredientViewSet.get_queryset from app/recipe/views.py: same shape as
the tag queryset. -/
def ingredient_get_queryset (db : List Ingredient) (request : Request) : List Ingredient :=
  sortBy (fun a b => !strLtB a.name b.name)
    (db.filter (fun i => i.user == request.user))

/-- Modelled from the spec: the recipe list handler (RecipeViewSet.get_queryset)
is not under src/, only its tests are.  Spec section 4.3: return recipes owned
by the resolved user, ordered by id descending, optionally restricted to
recipes whose tag (resp. ingredient) id set intersects the ids supplied in the
tags (resp. ingredients) filter, both filters combining conjunctively. -/
def recipe_get_queryset (db : List Recipe) (requestUser : Nat)
    (tagsFilter ingredientsFilter : Option (List Nat)) : List Recipe :=
  let owned := db.filter (fun r => r.user == requestUser)
  let byTags :=
    match tagsFilter with
    | none => owned
    | some ids => owned.filter (fun r => r.tags.any (fun t => ids.contains t))
  let byIngredients :=
    match ingredientsFilter with
    | none => byTags
    | some ids => byTags.filter (fun r => r.ingredients.any (fun i => ids.contains i))
  sortBy (fun a b => decide (b.id ≤ a.id)) byIngredients

theorem tag_get_queryset_user (db : List Tag) (request : Request) :
    ∀ t ∈ tag_get_queryset db request, t.user = request.user := by
  intro t ht
  rw [tag_get_queryset, mem_sortBy] at ht
  simpa using (List.mem_filter.mp ht).2

theorem ingredient_get_queryset_user (db : List Ingredient) (request : Request) :
    ∀ i ∈ ingredient_get_queryset db request, i.user = request.user := by
  intro i hi
  rw [ingredient_get_queryset, mem_sortBy] at hi
  simpa using (List.mem_filter.mp hi).2

theorem recipe_get_queryset_user (db : List Recipe) (u : Nat)
    (tf igf : Option (List Nat)) :
    ∀ r ∈ recipe_get_queryset db u tf igf, r.user = u := by
  intro r hr
  cases tf with
  | none =>
    cases igf with
    | none =>
      simp only [recipe_get_queryset, mem_sortBy] at hr
      simpa using (List.mem_filter.mp hr).2
    | some ids =>
      simp only [recipe_get_queryset, mem_sortBy] at hr
      simpa using (List.mem_filter.mp (List.mem_filter.mp hr).1).2
  | some ids =>
    cases igf with
    | none =>
      simp only [recipe_get_queryset, mem_sortBy] at hr
      simpa using (List.mem_filter.mp (List.mem_filter.mp hr).1).2
    | some ids2 =>
      simp only [recipe_get_queryset, mem_sortBy] at hr
      simpa using
        (List.mem_filter.mp (List.mem_filter.mp (List.mem_filter.mp hr).1).1).2

/-- C2: with two distinct users A and B, every entity returned by the tag,
ingredient or recipe list operation invoked as A is owned by A, and hence is
never an entity owned by B — for every database state, every query-parameter
list and every recipe filter combination. -/
theorem C2_lists_limited_to_user (tagDb : List Tag) (ingDb : List Ingredient)
    (recDb : List Recipe) (A B : Nat) (params : List (List Char × List Char))
    (tf igf : Option (List Nat)) (hAB : A ≠ B) :
    (∀ t ∈ tag_get_queryset tagDb ⟨A, params⟩, t.user = A ∧ t.user ≠ B) ∧
    (∀ i ∈ ingredient_get_queryset ingDb ⟨A, params⟩, i.user = A ∧ i.user ≠ B) ∧
    (∀ r ∈ recipe_get_queryset recDb A tf igf, r.user = A ∧ r.user ≠ B) := by
  refine ⟨fun t ht => ?_, fun i hi => ?_, fun r hr => ?_⟩
  · have h : t.user = A := tag_get_queryset_user tagDb ⟨A, params⟩ t ht
    exact ⟨h, fun hB => hAB (by rw [← h, hB])⟩
  · have h : i.user = A := ingredient_get_queryset_user ingDb ⟨A, params⟩ i hi
    exact ⟨h, fun hB => hAB (by rw [← h, hB])⟩
  · have h := recipe_get_queryset_user recDb A tf igf r hr
    exact ⟨h, fun hB => hAB (by rw [← h, hB])⟩

/-- C2 witness: the concrete two-user scenario of the repository tests — user 2
owns tag Fruity, ingredient Vinegar and recipe 1, user 1 owns tag
Comfort food, ingredient Turmeric and recipe 2 — listed as user 1. -/
theorem C2_lists_limited_to_user_witness :
    (∀ t ∈ tag_get_queryset
        [⟨1, "Fruity".toList, 2⟩, ⟨2, "Comfort food".toList, 1⟩]
        ⟨1, []⟩, t.user = 1 ∧ t.user ≠ 2) ∧
    (∀ i ∈ ingredient_get_queryset
        [⟨1, "Vinegar".toList, 2⟩, ⟨2, "Turmeric".toList, 1⟩]
        ⟨1, []⟩, i.user = 1 ∧ i.user ≠ 2) ∧
    (∀ r ∈ recipe_get_queryset
        [⟨1, 2, "default title".toList, 10, 500, [], [], [], none⟩,
         ⟨2, 1, "default title".toList, 10, 500, [], [], [], none⟩]
        1 none none, r.user = 1 ∧ r.user ≠ 2) :=
  C2_lists_limited_to_user
    [⟨1, "Fruity".toList, 2⟩, ⟨2, "Comfort food".toList, 1⟩]
    [⟨1, "Vinegar".toList, 2⟩, ⟨2, "Turmeric".toList, 1⟩]
    [⟨1, 2, "default title".toList, 10, 500, [], [], [], none⟩,
     ⟨2, 1, "default title".toList, 10, 500, [], [], [], none⟩]
    1 2 [] none none (by decide)

/-- C3 evaluation at the failing input of the repository's own test
test_retrieve_tags_assigned_unique: user 1 owns the tags breakfast and Lunch
and, in the test, two recipes that reference only breakfast; a tag listing
with assigned_only set to 1 nevertheless returns both tags, because
TagViewSet.get_queryset in app/recipe/views.py reads neither the
assigned_only parameter nor the Recipe table, while the test demands exactly
one tag.  The ingredient listing diverges the same way on the input of
test_retrieve_ingredients_assigned_unique. -/
theorem C3_assigned_only_ignored :
    (tag_get_queryset
        [⟨1, "breakfast".toList, 1⟩, ⟨2, "Lunch".toList, 1⟩]
        ⟨1, [("assigned_only".toList, "1".toList)]⟩).length = 2 ∧
    (ingredient_get_queryset
        [⟨1, "Eggs".toList, 1⟩, ⟨2, "cheese".toList, 1⟩]
        ⟨1, [("assigned_only".toList, "1".toList)]⟩).length = 2 := by
  decide

/-- User row for the custom user model in app/core/models.py.  The password
field holds whatever set_password stored: a salted hash produced by the
framework hasher, which is injected below as a function argument. -/
structure User where
  id : Nat
  email : List Char
  name : List Char
  password : List Char
  is_active : Bool := true
  is_staff : Bool := false
  is_superuser : Bool := false
deriving DecidableEq

/-- Error taxonomy of the API surface, spec section 7. -/
inductive ApiError where
  | validation
  | unauthorized
  | notFound
  | methodNotAllowed
deriving DecidableEq

/-- Lowercasing of a character list. -/
def lowerStr (s : List Char) : List Char := s.map Char.toLower

/-- Split at the last occurrence of a separator (Python rsplit with one
split): the parts before and after the last separator, or none when the
separator does not occur. -/
def splitAtLast (sep : Char) : List Char → Option (List Char × List Char)
  | [] => none
  | c :: cs =>
    match splitAtLast sep cs with
    | some (l, r) => some (c :: l, r)
    | none => if c = sep then some ([], cs) else none

/-- Modelled from the spec: normalize_email is framework code (the base user
manager), not under src/.  Per the spec, the stored email is the input with
its domain part — the substring after the last at-sign — lowercased; input
without an at-sign is left unchanged. -/
def normalize_email (email : List Char) : List Char :=
  match splitAtLast '@' email with
  | some (name_, domain) => name_ ++ '@' :: lowerStr domain
  | none => email

/-- UserManager.create_user from app/core/models.py: reject an empty email,
otherwise save the user with the normalized email and the hashed password
(set_password).  The framework hasher is injected as hash and the
database-assigned primary key as nextId. -/
def create_user (hash : List Char → List Char) (nextId : Nat)
    (email password name_ : List Char) : Except ApiError User :=
  if email = [] then .error .validation
  else .ok
    { id := nextId, email := normalize_email email, name := name_,
      password := hash password }

/-- Identity store: the persisted user table together with the next primary
key to assign. -/
structure IdentityStore where
  users : List User
  nextId : Nat
deriving DecidableEq

/-- Modelled from the spec: the registration handler (user serializer and
view) is not under src/, only its tests are.  Spec section 4.1 Register:
fail with ValidationError when the password is shorter than the minimum
length 5 or the email is empty or already registered; otherwise persist the
user through UserManager.create_user.  A failing request returns the store
unchanged. -/
def register (hash : List Char → List Char) (st : IdentityStore)
    (email password name_ : List Char) :
    Except ApiError User × IdentityStore :=
  if password.length < 5 then (.error .validation, st)
  else if st.users.any (fun u => u.email == normalize_email email) then
    (.error .validation, st)
  else
    match create_user hash st.nextId email password name_ with
    | .error e => (.error e, st)
    | .ok u => (.ok u, ⟨st.users ++ [u], st.nextId + 1⟩)

/-- Modelled from the spec: the registration response carries the created
user's public fields and never a password entry, spec sections 4.1 and 8. -/
def registerResponse (u : User) : List (List Char × List Char) :=
  [("email".toList, u.email), ("name".toList, u.name)]

/-- Modelled from the spec: the token endpoint (auth-token serializer and
view) is not under src/, only its tests are.  Spec section 4.1 Issue token:
fail with a 400-class error when either field is missing or empty or when
the credentials do not match an existing active user; otherwise return an
opaque token bound to the matched user, represented here by that user's
id. -/
def issue_token (hash : List Char → List Char) (st : IdentityStore)
    (email password : List Char) : Except ApiError Nat :=
  if email = [] ∨ password = [] then .error .validation
  else
    match st.users.find? (fun u =>
        u.email == email && u.password == hash password && u.is_active) with
    | some u => .ok u.id
    | none => .error .validation

/-- TagViewSet.perform_create from app/recipe/views.py saves the new tag
with user set to the requesting user; the empty-name rejection comes from
the tag serializer, which is not under src/ and is modelled from the spec,
section 4.2: a create with an empty name fails with ValidationError. -/
def tag_create (db : List Tag) (nextId : Nat) (request : Request)
    (name_ : List Char) : Except ApiError Tag × List Tag :=
  if name_ = [] then (.error .validation, db)
  else
    let t : Tag := ⟨nextId, name_, request.user⟩
    (.ok t, db ++ [t])

/-- IngredientViewSet.perform_create from app/recipe/views.py, with the same
spec-modelled empty-name validation as tag_create. -/
def ingredient_create (db : List Ingredient) (nextId : Nat) (request : Request)
    (name_ : List Char) : Except ApiError Ingredient × List Ingredient :=
  if name_ = [] then (.error .validation, db)
  else
    let i : Ingredient := ⟨nextId, name_, request.user⟩
    (.ok i, db ++ [i])

/-- Update payload for a recipe; a field set to none is absent from the
request body. -/
structure RecipeUpdatePayload where
  title : Option (List Char) := none
  time_minutes : Option Int := none
  price : Option Int := none
  link : Option (List Char) := none
  tags : Option (List Nat) := none
  ingredients : Option (List Nat) := none

/-- Modelled from the spec: the recipe update handler (the recipe viewset
with its serializer) is not under src/, only its tests are.  Spec section
4.3 Update: a PATCH-style update changes only the supplied fields and
leaves unspecified relations such as tags untouched; a PUT-style full
update requires title, time_minutes and price and replaces the relation
sets, clearing them when absent from the payload. -/
def recipe_update (r : Recipe) (p : RecipeUpdatePayload) (patch : Bool) :
    Except ApiError Recipe :=
  if patch then
    .ok { r with
      title := p.title.getD r.title,
      time_minutes := p.time_minutes.getD r.time_minutes,
      price := p.price.getD r.price,
      link := p.link.getD r.link,
      tags := p.tags.getD r.tags,
      ingredients := p.ingredients.getD r.ingredients }
  else
    match p.title, p.time_minutes, p.price with
    | some t, some m, some pr =>
      .ok { r with
        title := t, time_minutes := m, price := pr,
        link := p.link.getD r.link,
        tags := p.tags.getD [],
        ingredients := p.ingredients.getD [] }
    | _, _, _ => .error .validation

/-- Sample hasher for the witnesses: it prepends a marker character, so no
input is its own image. -/
def demoHash (p : List Char) : List Char := '#' :: p

theorem demoHash_ne (p : List Char) : demoHash p ≠ p := by
  intro h
  have hlen := congrArg List.length h
  simp [demoHash] at hlen

/-- C4: for every recipe and every payload that omits tags while supplying
the scalar fields, the PUT-style full update succeeds with an empty tag set
and the supplied scalar values, while the PATCH-style partial update
succeeds keeping the recipe's existing tag set, again with the supplied
scalar values. -/
theorem C4_put_clears_tags_patch_keeps (r : Recipe) (p : RecipeUpdatePayload)
    (t : List Char) (m pr : Int) (htags : p.tags = none)
    (ht : p.title = some t) (hm : p.time_minutes = some m)
    (hpr : p.price = some pr) :
    (∃ r', recipe_update r p false = .ok r' ∧ r'.tags = [] ∧
      r'.title = t ∧ r'.time_minutes = m ∧ r'.price = pr) ∧
    (∃ r', recipe_update r p true = .ok r' ∧ r'.tags = r.tags ∧
      r'.title = t ∧ r'.time_minutes = m ∧ r'.price = pr) := by
  refine ⟨⟨{ r with
             title := t,
             time_minutes := m,
             price := pr,
             link := p.link.getD r.link,
             tags := [],
             ingredients := p.ingredients.getD [] }, ?_, rfl, rfl, rfl, rfl⟩,
    ⟨{ r with
       title := t,
       time_minutes := m,
       price := pr,
       link := p.link.getD r.link,
       tags := r.tags,
       ingredients := p.ingredients.getD r.ingredients }, ?_, rfl, rfl, rfl, rfl⟩⟩
  · simp [recipe_update, ht, hm, hpr, htags]
  · simp [recipe_update, ht, hm, hpr, htags]

/-- C4 witness: the recipe of the repository's full-update test (default
title, 10 minutes, price 5.00, one tag) updated with the payload of
test_full_update_recipe, which supplies the three scalars and no tags. -/
theorem C4_put_clears_tags_patch_keeps_witness :
    (∃ r', recipe_update ⟨1, 1, "default title".toList, 10, 500, [], [1], [], none⟩
        ⟨some "Spaghetti carbonara".toList, some 25, some 1000, none, none, none⟩
        false = .ok r' ∧ r'.tags = [] ∧ r'.title = "Spaghetti carbonara".toList ∧
        r'.time_minutes = 25 ∧ r'.price = 1000) ∧
    (∃ r', recipe_update ⟨1, 1, "default title".toList, 10, 500, [], [1], [], none⟩
        ⟨some "Spaghetti carbonara".toList, some 25, some 1000, none, none, none⟩
        true = .ok r' ∧ r'.tags = [1] ∧ r'.title = "Spaghetti carbonara".toList ∧
        r'.time_minutes = 25 ∧ r'.price = 1000) :=
  C4_put_clears_tags_patch_keeps
    ⟨1, 1, "default title".toList, 10, 500, [], [1], [], none⟩
    ⟨some "Spaghetti carbonara".toList, some 25, some 1000, none, none, none⟩
    "Spaghetti carbonara".toList 25 1000 rfl rfl rfl rfl

/-- C5: a registration whose password is shorter than 5 characters fails
with a validation error and leaves the identity store untouched, whatever
the hasher, the store and the rest of the payload. -/
theorem C5_short_password_rejected (hash : List Char → List Char)
    (st : IdentityStore) (email password name_ : List Char)
    (hshort : password.length < 5) :
    (register hash st email password name_).1 = .error .validation ∧
    (register hash st email password name_).2 = st := by
  simp [register, hshort]

/-- C5 witness: the payload of test_password_restriction, password "pw" of
length 2, against the empty store. -/
theorem C5_short_password_rejected_witness :
    ("pw".toList).length < 5 ∧
    ((register demoHash ⟨[], 0⟩ "test@test.com".toList "pw".toList
        "user".toList).1 = .error .validation ∧
      (register demoHash ⟨[], 0⟩ "test@test.com".toList "pw".toList
        "user".toList).2 = ⟨[], 0⟩) :=
  ⟨by decide,
    C5_short_password_rejected demoHash ⟨[], 0⟩ "test@test.com".toList
      "pw".toList "user".toList (by decide)⟩

/-- C6: under a one-way hasher (no input is its own image), every valid
registration appends exactly one user whose stored password is the hash of
the plaintext and in particular differs from the plaintext, and the
registration response carries no password field. -/
theorem C6_password_hashed_and_hidden (hash : List Char → List Char)
    (hone : ∀ q, hash q ≠ q) (st : IdentityStore)
    (email password name_ : List Char)
    (hlen : ¬ password.length < 5) (hemail : email ≠ [])
    (hfree : st.users.any (fun u => u.email == normalize_email email) = false) :
    ∃ u st', register hash st email password name_ = (.ok u, st') ∧
      u.password = hash password ∧ u.password ≠ password ∧
      st'.users = st.users ++ [u] ∧
      ∀ kv ∈ registerResponse u, kv.1 ≠ "password".toList := by
  have hreg : register hash st email password name_
      = (.ok { id := st.nextId,
               email := normalize_email email,
               name := name_,
               password := hash password },
          ⟨st.users ++ [{ id := st.nextId,
                          email := normalize_email email,
                          name := name_,
                          password := hash password }], st.nextId + 1⟩) := by
    simp [register, hlen, hfree, create_user, hemail]
  refine ⟨_, _, hreg, rfl, hone password, rfl, ?_⟩
  intro kv hkv
  simp only [registerResponse, List.mem_cons, List.not_mem_nil, or_false] at hkv
  rcases hkv with rfl | rfl
  · exact (by decide : ("email".toList : List Char) ≠ "password".toList)
  · exact (by decide : ("name".toList : List Char) ≠ "password".toList)

/-- C6 witness: the valid payload of test_create_valid_user_success against
the empty store, hashed with the marker hasher. -/
theorem C6_password_hashed_and_hidden_witness :
    ∃ u st', register demoHash ⟨[], 0⟩ "test@test.com".toList
        "pass123".toList "user".toList = (.ok u, st') ∧
      u.password = demoHash "pass123".toList ∧
      u.password ≠ "pass123".toList ∧
      st'.users = [] ++ [u] ∧
      ∀ kv ∈ registerResponse u, kv.1 ≠ "password".toList :=
  C6_password_hashed_and_hidden demoHash demoHash_ne ⟨[], 0⟩
    "test@test.com".toList "pass123".toList "user".toList
    (by decide) (by decide) (by decide)

/-- C7: token issuance succeeds exactly when both fields are non-empty and
some stored active user carries that email with a matching password hash;
whenever it does not succeed it fails with a validation error (a 400-class
response) and no token. -/
theorem C7_token_iff_credentials (hash : List Char → List Char)
    (st : IdentityStore) (email password : List Char) :
    ((∃ tok, issue_token hash st email password = .ok tok) ↔
      (email ≠ [] ∧ password ≠ [] ∧
        ∃ u ∈ st.users, u.email = email ∧ u.password = hash password ∧
          u.is_active = true)) ∧
    ((¬ ∃ tok, issue_token hash st email password = .ok tok) →
      issue_token hash st email password = .error .validation) := by
  by_cases hempty : email = [] ∨ password = []
  · constructor
    · constructor
      · intro h
        obtain ⟨tok, htok⟩ := h
        simp [issue_token, hempty] at htok
      · intro h
        obtain ⟨he, hp, _⟩ := h
        rcases hempty with h' | h'
        · exact absurd h' he
        · exact absurd h' hp
    · intro _
      simp [issue_token, hempty]
  · have he : email ≠ [] := fun h => hempty (Or.inl h)
    have hp : password ≠ [] := fun h => hempty (Or.inr h)
    cases hfind : st.users.find? (fun u =>
        u.email == email && u.password == hash password && u.is_active) with
    | some u =>
      have hmem := List.mem_of_find?_eq_some hfind
      have hpred := List.find?_some hfind
      simp only [Bool.and_eq_true, beq_iff_eq] at hpred
      constructor
      · constructor
        · intro _
          exact ⟨he, hp, u, hmem, hpred.1.1, hpred.1.2, hpred.2⟩
        · intro _
          exact ⟨u.id, by simp [issue_token, hempty, hfind]⟩
      · intro hno
        exact absurd ⟨u.id, by simp [issue_token, hempty, hfind]⟩ hno
    | none =>
      constructor
      · constructor
        · intro h
          obtain ⟨tok, htok⟩ := h
          simp [issue_token, hempty, hfind] at htok
        · intro h
          obtain ⟨_, _, u, hmem, he', hpw, hact⟩ := h
          have hnone := List.find?_eq_none.mp hfind u hmem
          simp [he', hpw, hact] at hnone
      · intro _
        simp [issue_token, hempty, hfind]

/-- C7 witness: the store holding the user of test_create_token_for_user
with the matching credentials yields a token. -/
theorem C7_token_iff_credentials_witness :
    ∃ tok, issue_token demoHash
      ⟨[⟨0, "test@test.com".toList, "user".toList,
          demoHash "testpass".toList, true, false, false⟩], 1⟩
      "test@test.com".toList "testpass".toList = .ok tok :=
  (C7_token_iff_credentials demoHash
      ⟨[⟨0, "test@test.com".toList, "user".toList,
          demoHash "testpass".toList, true, false, false⟩], 1⟩
      "test@test.com".toList "testpass".toList).1.mpr
    ⟨by decide, by decide,
      ⟨0, "test@test.com".toList, "user".toList,
        demoHash "testpass".toList, true, false, false⟩,
      by simp, rfl, rfl, rfl⟩

/-- C8: creating a tag or an ingredient with an empty name fails with a
validation error and leaves the table unchanged, and a create with a
non-empty name yields an entity owned by the user resolved from the
token. -/
theorem C8_create_validation_and_owner (tagDb : List Tag)
    (ingDb : List Ingredient) (tagId ingId : Nat) (request : Request)
    (name_ : List Char) :
    (name_ = [] →
      tag_create tagDb tagId request name_ = (.error .validation, tagDb) ∧
      ingredient_create ingDb ingId request name_ = (.error .validation, ingDb)) ∧
    (name_ ≠ [] →
      (∃ t, (tag_create tagDb tagId request name_).1 = .ok t ∧
        t.user = request.user ∧ t.name = name_) ∧
      (∃ i, (ingredient_create ingDb ingId request name_).1 = .ok i ∧
        i.user = request.user ∧ i.name = name_)) := by
  constructor
  · intro h
    subst h
    exact ⟨by simp [tag_create], by simp [ingredient_create]⟩
  · intro h
    refine ⟨⟨⟨tagId, name_, request.user⟩, ?_, rfl, rfl⟩,
      ⟨⟨ingId, name_, request.user⟩, ?_, rfl, rfl⟩⟩
    · simp [tag_create, h]
    · simp [ingredient_create, h]

/-- C8 witness: the empty name is rejected without touching the table, and
the name of test_create_tag_successful yields a tag owned by user 7. -/
theorem C8_create_validation_and_owner_witness :
    (tag_create [] 1 ⟨7, []⟩ [] = (.error .validation, []) ∧
      ingredient_create [] 1 ⟨7, []⟩ [] = (.error .validation, [])) ∧
    (∃ t, (tag_create [] 1 ⟨7, []⟩ "test tag".toList).1 = .ok t ∧
      t.user = 7 ∧ t.name = "test tag".toList) :=
  ⟨(C8_create_validation_and_owner [] [] 1 1 ⟨7, []⟩ []).1 rfl,
    ((C8_create_validation_and_owner [] [] 1 1 ⟨7, []⟩ "test tag".toList).2
      (by decide)).1⟩

theorem splitAtLast_not_mem (sep : Char) (s : List Char) (h : sep ∉ s) :
    splitAtLast sep s = none := by
  induction s with
  | nil => rfl
  | cons c cs ih =>
    have hc : c ≠ sep := by
      intro hh
      exact h (hh ▸ List.mem_cons_self c cs)
    have hcs : sep ∉ cs := fun hh => h (List.mem_cons_of_mem c hh)
    simp [splitAtLast, ih hcs, hc]

theorem splitAtLast_append (sep : Char) (a b : List Char) (hb : sep ∉ b) :
    splitAtLast sep (a ++ sep :: b) = some (a, b) := by
  induction a with
  | nil => simp [splitAtLast, splitAtLast_not_mem sep b hb]
  | cons c cs ih => simp [splitAtLast, ih]

/-- C9: creating a user whose non-empty email splits as a local part, an
at-sign and a domain free of further at-signs succeeds and stores the email
with exactly that domain part lowercased. -/
theorem C9_email_normalized (hash : List Char → List Char) (nextId : Nat)
    (password name_ localPart domain : List Char) (hdom : '@' ∉ domain) :
    ∃ u, create_user hash nextId (localPart ++ '@' :: domain) password name_
        = .ok u ∧
      u.email = localPart ++ '@' :: lowerStr domain := by
  have hne : localPart ++ '@' :: domain ≠ [] := by simp
  refine ⟨{ id := nextId,
            email := normalize_email (localPart ++ '@' :: domain),
            name := name_,
            password := hash password }, ?_, ?_⟩
  · simp [create_user, hne]
  · simp [normalize_email, splitAtLast_append '@' localPart domain hdom]

/-- C9 witness: the email of test_new_user_email_normalized, test@TEST.COM,
is stored as test@test.com. -/
theorem C9_email_normalized_witness :
    ∃ u, create_user demoHash 1 "test@TEST.COM".toList "random".toList
        "user".toList = .ok u ∧
      u.email = "test@test.com".toList := by
  obtain ⟨u, h1, h2⟩ := C9_email_normalized demoHash 1 "random".toList
    "user".toList "test".toList "TEST.COM".toList (by decide)
  refine ⟨u, h1, ?_⟩
  rw [h2]
  decide

end RecipeApp
